import Mathlib

/-!
Verification of the backtesting core of `lightweight-charts-extended`.

The Python source is shallowly embedded: prices are modelled as exact
rationals, pandas/numpy series as `List ℚ`, OHLCV frames as `List Bar`,
and the per-bar driver as explicit state passing.  Every definition below
is translated from the corresponding function in
`src/backend/app/backtesting/...` or `src/backend/scripts/backtest/...`,
except where a doc comment says it is modelled from the spec.
-/

/-! ## Swing detector
Embedding of `smart_money_simple_test/components/swing_detector.py`. -/

/-- Fields of `SwingDetector.__init__`. -/
structure SwingDetector where
  swing_length : ℕ
  min_swing_size : ℚ

/-- Python slice `l[s : s+n]` on a list. -/
def pySlice (l : List ℚ) (s n : ℕ) : List ℚ := (l.drop s).take n

/-- Embedding of `window.max()` on a pandas series (no NaN entries): `none` on empty. -/
def listMax : List ℚ → Option ℚ
  | [] => none
  | x :: xs => some (xs.foldl max x)

/-- Embedding of `window.min()` on a pandas series (no NaN entries): `none` on empty. -/
def listMin : List ℚ → Option ℚ
  | [] => none
  | x :: xs => some (xs.foldl min x)

/-- Embedding of `SwingDetector._is_significant_high`: always `true` in the source. -/
def SwingDetector.is_significant_high (_d : SwingDetector) (_price : ℚ)
    (_high_series : List ℚ) (_index : ℕ) : Bool := true

/-- Embedding of `SwingDetector._is_significant_low`: always `true` in the source. -/
def SwingDetector.is_significant_low (_d : SwingDetector) (_price : ℚ)
    (_low_series : List ℚ) (_index : ℕ) : Bool := true

/-- Body of the loop in `calculate_swing_highs`: `true` iff the loop writes a
value at index `i`.  The first two conjuncts are the loop bounds
`range(swing_length, len - swing_length)`; the window is
`high_series[i-swing_length : i+swing_length+1]`. -/
def SwingDetector.swing_high_at (d : SwingDetector) (h : List ℚ) (i : ℕ) : Bool :=
  decide (d.swing_length ≤ i) && decide (i + d.swing_length < h.length) &&
  decide (listMax (pySlice h (i - d.swing_length) (2 * d.swing_length + 1)) = some (h.getD i 0)) &&
  decide (h.getD i 0 > h.getD (i - 1) 0) && decide (h.getD i 0 > h.getD (i + 1) 0) &&
  d.is_significant_high (h.getD i 0) h i

/-- Body of the loop in `calculate_swing_lows`. -/
def SwingDetector.swing_low_at (d : SwingDetector) (l : List ℚ) (i : ℕ) : Bool :=
  decide (d.swing_length ≤ i) && decide (i + d.swing_length < l.length) &&
  decide (listMin (pySlice l (i - d.swing_length) (2 * d.swing_length + 1)) = some (l.getD i 0)) &&
  decide (l.getD i 0 < l.getD (i - 1) 0) && decide (l.getD i 0 < l.getD (i + 1) 0) &&
  d.is_significant_low (l.getD i 0) l i

/-- Embedding of `SwingDetector.calculate_swing_highs`: the result array, with `np.nan`
modelled as `none` and a written entry as `some high[i]`. -/
def SwingDetector.calculate_swing_highs (d : SwingDetector) (h : List ℚ) :
    List (Option ℚ) :=
  (List.range h.length).map (fun i => if d.swing_high_at h i then some (h.getD i 0) else none)

/-- Embedding of `SwingDetector.calculate_swing_lows`. -/
def SwingDetector.calculate_swing_lows (d : SwingDetector) (l : List ℚ) :
    List (Option ℚ) :=
  (List.range l.length).map (fun i => if d.swing_low_at l i then some (l.getD i 0) else none)

example : (SwingDetector.mk 2 0).swing_high_at [5, 3, 5, 3, 5] 2 = true := by decide
example : (SwingDetector.mk 2 0).swing_high_at [1, 3, 5, 3, 1] 2 = true := by decide
example : (SwingDetector.mk 2 0).swing_high_at [1, 3, 5, 6, 1] 2 = false := by decide
example : (SwingDetector.mk 2 0).swing_low_at [5, 3, 1, 3, 5] 2 = true := by decide

/-! ### Helper lemmas about `listMax`, `listMin` and `pySlice` -/

lemma le_foldl_max (xs : List ℚ) (a : ℚ) : a ≤ xs.foldl max a := by
  induction xs generalizing a with
  | nil => exact le_refl a
  | cons y ys ih => exact le_trans (le_max_left a y) (ih (max a y))

lemma mem_le_foldl_max (xs : List ℚ) (a x : ℚ) (hx : x ∈ xs) : x ≤ xs.foldl max a := by
  induction xs generalizing a with
  | nil => cases hx
  | cons y ys ih =>
    rcases List.mem_cons.mp hx with h | h
    · subst h
      exact le_trans (le_max_right a x) (le_foldl_max ys (max a x))
    · exact ih (max a y) h

lemma foldl_max_mem (xs : List ℚ) (a : ℚ) : xs.foldl max a = a ∨ xs.foldl max a ∈ xs := by
  induction xs generalizing a with
  | nil => exact Or.inl rfl
  | cons y ys ih =>
    rcases ih (max a y) with h | h
    · rcases max_choice a y with hc | hc
      · exact Or.inl (by simpa [hc] using h)
      · refine Or.inr (List.mem_cons.mpr (Or.inl ?_))
        simpa [hc] using h
    · exact Or.inr (List.mem_cons.mpr (Or.inr h))

/-- A pandas `.max()` equals a member `m` iff `m` bounds every element. -/
lemma listMax_eq_iff (w : List ℚ) (m : ℚ) (hm : m ∈ w) :
    listMax w = some m ↔ ∀ x ∈ w, x ≤ m := by
  cases w with
  | nil => cases hm
  | cons y ys =>
    simp only [listMax, Option.some_inj]
    constructor
    · intro hEq x hx
      rcases List.mem_cons.mp hx with h | h
      · subst h
        exact hEq ▸ le_foldl_max ys x
      · exact hEq ▸ mem_le_foldl_max ys y x h
    · intro hub
      have hle : ys.foldl max y ≤ m := by
        rcases foldl_max_mem ys y with h | h
        · rw [h]; exact hub y (List.mem_cons_self y ys)
        · exact hub _ (List.mem_cons.mpr (Or.inr h))
      have hge : m ≤ ys.foldl max y := by
        rcases List.mem_cons.mp hm with h | h
        · exact h ▸ le_foldl_max ys y
        · exact mem_le_foldl_max ys y m h
      exact le_antisymm hle hge

lemma foldl_max_neg (xs : List ℚ) (a : ℚ) :
    (xs.map Neg.neg).foldl max (-a) = -(xs.foldl min a) := by
  induction xs generalizing a with
  | nil => rfl
  | cons y ys ih =>
    simp only [List.map_cons, List.foldl_cons, max_neg_neg]
    exact ih (min a y)

lemma listMax_map_neg (w : List ℚ) :
    listMax (w.map Neg.neg) = (listMin w).map Neg.neg := by
  cases w with
  | nil => rfl
  | cons y ys => simp [listMax, listMin, foldl_max_neg]

lemma getD_map_neg (l : List ℚ) (j : ℕ) :
    (l.map Neg.neg).getD j 0 = -(l.getD j 0) := by
  induction l generalizing j with
  | nil => simp [List.getD]
  | cons a t ih =>
    cases j with
    | zero => rfl
    | succ k => exact ih k

lemma pySlice_map_neg (l : List ℚ) (s n : ℕ) :
    pySlice (l.map Neg.neg) s n = (pySlice l s n).map Neg.neg := by
  simp [pySlice, List.map_take, List.map_drop]

lemma mem_pySlice_iff (l : List ℚ) (s n : ℕ) (x : ℚ) (h : s + n ≤ l.length) :
    x ∈ pySlice l s n ↔ ∃ j, s ≤ j ∧ j < s + n ∧ x = l.getD j 0 := by
  have hlen : (pySlice l s n).length = n := by
    simp only [pySlice, List.length_take, List.length_drop]
    omega
  rw [List.mem_iff_getElem]
  constructor
  · rintro ⟨k, hk, hget⟩
    rw [hlen] at hk
    refine ⟨s + k, Nat.le_add_right s k, by omega, ?_⟩
    have hsk : s + k < l.length := by omega
    rw [List.getD_eq_getElem l 0 hsk]
    rw [← hget]
    simp only [pySlice]
    rw [List.getElem_take, List.getElem_drop]
  · rintro ⟨j, hsj, hjn, hx⟩
    obtain ⟨k, rfl⟩ : ∃ k, j = s + k := ⟨j - s, by omega⟩
    have hj : s + k < l.length := by omega
    refine ⟨k, by omega, ?_⟩
    rw [hx, List.getD_eq_getElem l 0 hj]
    simp only [pySlice]
    rw [List.getElem_take, List.getElem_drop]

/-! ### Characterization of the swing conditions -/

/-- The loop condition of `calculate_swing_highs`, unfolded: in-range, the bar
attains the window maximum (ties allowed), and beats both neighbors strictly. -/
lemma swing_high_at_iff (d : SwingDetector) (h : List ℚ) (i : ℕ) :
    d.swing_high_at h i = true ↔
      d.swing_length ≤ i ∧ i + d.swing_length < h.length ∧
      (∀ j, i - d.swing_length ≤ j → j ≤ i + d.swing_length → h.getD j 0 ≤ h.getD i 0) ∧
      h.getD (i - 1) 0 < h.getD i 0 ∧ h.getD (i + 1) 0 < h.getD i 0 := by
  simp only [SwingDetector.swing_high_at, SwingDetector.is_significant_high,
    Bool.and_true, Bool.and_eq_true, decide_eq_true_eq, gt_iff_lt]
  constructor
  · rintro ⟨⟨⟨⟨hsl, hlen⟩, hmax⟩, hn1⟩, hn2⟩
    refine ⟨hsl, hlen, ?_, hn1, hn2⟩
    intro j hj1 hj2
    have hbound : (i - d.swing_length) + (2 * d.swing_length + 1) ≤ h.length := by omega
    have hmem : h.getD j 0 ∈ pySlice h (i - d.swing_length) (2 * d.swing_length + 1) := by
      rw [mem_pySlice_iff _ _ _ _ hbound]
      exact ⟨j, hj1, by omega, rfl⟩
    have hself : h.getD i 0 ∈ pySlice h (i - d.swing_length) (2 * d.swing_length + 1) := by
      rw [mem_pySlice_iff _ _ _ _ hbound]
      exact ⟨i, by omega, by omega, rfl⟩
    exact ((listMax_eq_iff _ _ hself).mp hmax) _ hmem
  · rintro ⟨hsl, hlen, hwin, hn1, hn2⟩
    refine ⟨⟨⟨⟨hsl, hlen⟩, ?_⟩, hn1⟩, hn2⟩
    have hbound : (i - d.swing_length) + (2 * d.swing_length + 1) ≤ h.length := by omega
    have hself : h.getD i 0 ∈ pySlice h (i - d.swing_length) (2 * d.swing_length + 1) := by
      rw [mem_pySlice_iff _ _ _ _ hbound]
      exact ⟨i, by omega, by omega, rfl⟩
    rw [listMax_eq_iff _ _ hself]
    intro x hx
    rcases (mem_pySlice_iff _ _ _ _ hbound).mp hx with ⟨j, hj1, hj2, rfl⟩
    exact hwin j hj1 (by omega)

/-- Detecting a swing low on a series is detecting a swing high on its
pointwise negation. -/
lemma swing_low_eq_high_neg (d : SwingDetector) (l : List ℚ) (i : ℕ) :
    d.swing_low_at l i = d.swing_high_at (l.map Neg.neg) i := by
  simp only [SwingDetector.swing_low_at, SwingDetector.swing_high_at,
    SwingDetector.is_significant_low, SwingDetector.is_significant_high, Bool.and_true]
  have hlen : (l.map Neg.neg).length = l.length := List.length_map l Neg.neg
  have hmax : (listMax (pySlice (l.map Neg.neg) (i - d.swing_length) (2 * d.swing_length + 1))
      = some ((l.map Neg.neg).getD i 0)) ↔
      (listMin (pySlice l (i - d.swing_length) (2 * d.swing_length + 1)) = some (l.getD i 0)) := by
    rw [pySlice_map_neg, listMax_map_neg, getD_map_neg]
    cases listMin (pySlice l (i - d.swing_length) (2 * d.swing_length + 1)) with
    | none => simp
    | some c => simp [neg_inj]
  congr 1
  · congr 1
    · congr 1
      · congr 1
        · rw [hlen]
      · exact (decide_eq_decide.mpr hmax).symm
    · refine (decide_eq_decide.mpr ?_).symm
      rw [getD_map_neg, getD_map_neg]
      exact neg_lt_neg_iff
  · refine (decide_eq_decide.mpr ?_).symm
    rw [getD_map_neg, getD_map_neg]
    exact neg_lt_neg_iff

/-- Mirror of `swing_high_at_iff` for lows. -/
lemma swing_low_at_iff (d : SwingDetector) (l : List ℚ) (i : ℕ) :
    d.swing_low_at l i = true ↔
      d.swing_length ≤ i ∧ i + d.swing_length < l.length ∧
      (∀ j, i - d.swing_length ≤ j → j ≤ i + d.swing_length → l.getD i 0 ≤ l.getD j 0) ∧
      l.getD i 0 < l.getD (i - 1) 0 ∧ l.getD i 0 < l.getD (i + 1) 0 := by
  rw [swing_low_eq_high_neg, swing_high_at_iff]
  rw [List.length_map]
  constructor
  · rintro ⟨hsl, hlen, hwin, hn1, hn2⟩
    refine ⟨hsl, hlen, ?_, ?_, ?_⟩
    · intro j hj1 hj2
      have := hwin j hj1 hj2
      rw [getD_map_neg, getD_map_neg] at this
      exact neg_le_neg_iff.mp this
    · rw [getD_map_neg, getD_map_neg] at hn1
      exact neg_lt_neg_iff.mp hn1
    · rw [getD_map_neg, getD_map_neg] at hn2
      exact neg_lt_neg_iff.mp hn2
  · rintro ⟨hsl, hlen, hwin, hn1, hn2⟩
    refine ⟨hsl, hlen, ?_, ?_, ?_⟩
    · intro j hj1 hj2
      rw [getD_map_neg, getD_map_neg]
      exact neg_le_neg_iff.mpr (hwin j hj1 hj2)
    · rw [getD_map_neg, getD_map_neg]
      exact neg_lt_neg_iff.mpr hn1
    · rw [getD_map_neg, getD_map_neg]
      exact neg_lt_neg_iff.mpr hn2

/-- The output array marks index `i` exactly when the loop condition held. -/
lemma calc_highs_isSome (d : SwingDetector) (h : List ℚ) (i : ℕ) :
    ((d.calculate_swing_highs h).getD i none).isSome = d.swing_high_at h i := by
  unfold SwingDetector.calculate_swing_highs
  by_cases hi : i < h.length
  · rw [List.getD_eq_getElem _ _ (by simpa using hi)]
    simp only [List.getElem_map, List.getElem_range]
    by_cases hs : d.swing_high_at h i
    · simp [hs]
    · simp [hs]
  · rw [List.getD_eq_default _ _ (by simpa using Nat.le_of_not_lt hi)]
    have : d.swing_high_at h i = false := by
      unfold SwingDetector.swing_high_at
      have : ¬ (i + d.swing_length < h.length) := by omega
      simp [this]
    rw [this]
    rfl

/-- Mirror of `calc_highs_isSome` for lows. -/
lemma calc_lows_isSome (d : SwingDetector) (l : List ℚ) (i : ℕ) :
    ((d.calculate_swing_lows l).getD i none).isSome = d.swing_low_at l i := by
  unfold SwingDetector.calculate_swing_lows
  by_cases hi : i < l.length
  · rw [List.getD_eq_getElem _ _ (by simpa using hi)]
    simp only [List.getElem_map, List.getElem_range]
    by_cases hs : d.swing_low_at l i
    · simp [hs]
    · simp [hs]
  · rw [List.getD_eq_default _ _ (by simpa using Nat.le_of_not_lt hi)]
    have : d.swing_low_at l i = false := by
      unfold SwingDetector.swing_low_at
      have : ¬ (i + d.swing_length < l.length) := by omega
      simp [this]
    rw [this]
    rfl

/-! ### Claim theorems for the swing detector -/

/-- Claim C2, counterexample: with `swing_length = 2` and highs `[5,3,5,3,5]`,
the detector marks index 2 as a swing high although `high[2]` is not the
strict maximum of the window `[0,4]` (it ties with `high[0]`), so the
claimed "iff strict maximum" characterization is false on the code. -/
theorem c2_counterexample :
    (((SwingDetector.mk 2 (1/500)).calculate_swing_highs [5, 3, 5, 3, 5]).getD 2 none).isSome
      = true
    ∧ ¬ (([(5:ℚ), 3, 5, 3, 5].getD 0 0) < ([(5:ℚ), 3, 5, 3, 5].getD 2 0)) := by
  constructor
  · decide
  · decide

/-- Claim C2 (amended): for every series and `swing_length ≥ 2`, index `i` is
marked as a swing high iff it has `swing_length` bars on both sides, `high[i]`
attains the maximum of the closed window `[i-swing_length, i+swing_length]`
(ties with non-neighbor window entries are allowed, i.e. the maximum need not
be strict), and `high[i]` is strictly greater than both immediate neighbors;
the swing-low condition is the symmetric condition on the low series. -/
theorem c2_swing_marking (d : SwingDetector) (h l : List ℚ) (i : ℕ)
    (hsl : 2 ≤ d.swing_length) :
    ((((d.calculate_swing_highs h).getD i none).isSome = true) ↔
      (d.swing_length ≤ i ∧ i + d.swing_length < h.length ∧
       (∀ j, i - d.swing_length ≤ j → j ≤ i + d.swing_length → h.getD j 0 ≤ h.getD i 0) ∧
       h.getD (i - 1) 0 < h.getD i 0 ∧ h.getD (i + 1) 0 < h.getD i 0))
    ∧ ((((d.calculate_swing_lows l).getD i none).isSome = true) ↔
      (d.swing_length ≤ i ∧ i + d.swing_length < l.length ∧
       (∀ j, i - d.swing_length ≤ j → j ≤ i + d.swing_length → l.getD i 0 ≤ l.getD j 0) ∧
       l.getD i 0 < l.getD (i - 1) 0 ∧ l.getD i 0 < l.getD (i + 1) 0)) := by
  constructor
  · rw [calc_highs_isSome]
    exact swing_high_at_iff d h i
  · rw [calc_lows_isSome]
    exact swing_low_at_iff d l i

/-- Witness for `c2_swing_marking` at `swing_length = 2`,
highs `[1,3,5,3,1]`: index 2 is marked. -/
theorem c2_swing_marking_witness :
    (((SwingDetector.mk 2 (1/500)).calculate_swing_highs [1, 3, 5, 3, 1]).getD 2 none).isSome
      = true := by
  refine ((c2_swing_marking (SwingDetector.mk 2 (1/500)) [1, 3, 5, 3, 1] [5, 3, 1, 3, 5] 2
    (by norm_num)).1).mpr ?_
  refine ⟨by norm_num, by norm_num, ?_, by decide, by decide⟩
  intro j h1 h2
  simp only [SwingDetector.mk] at h2 ⊢
  interval_cases j <;> decide

/-- Claim C8: swing detection is symmetric under pointwise price negation —
index `i` is marked a swing high of `h` iff it is marked a swing low of `-h`. -/
theorem c8_negation_symmetry (d : SwingDetector) (h : List ℚ) (i : ℕ) :
    ((d.calculate_swing_highs h).getD i none).isSome
      = ((d.calculate_swing_lows (h.map Neg.neg)).getD i none).isSome := by
  rw [calc_highs_isSome, calc_lows_isSome, swing_low_eq_high_neg]
  have hdn : (h.map Neg.neg).map Neg.neg = h := by
    rw [List.map_map]
    simp [Function.comp_def, neg_neg]
  rw [hdn]

/-- Claim C9: `min_swing_size` has no effect — two detectors with the same
`swing_length` and different `min_swing_size` produce identical swing-high
and swing-low outputs, because the significance filters always return true. -/
theorem c9_min_swing_size_unused (sl : ℕ) (a b : ℚ) (h l : List ℚ) :
    (SwingDetector.mk sl a).calculate_swing_highs h
        = (SwingDetector.mk sl b).calculate_swing_highs h
    ∧ (SwingDetector.mk sl a).calculate_swing_lows l
        = (SwingDetector.mk sl b).calculate_swing_lows l :=
  ⟨rfl, rfl⟩

/-! ## Gap (FVG) detector
Embedding of `smart_money_simple_test/components/fvg_detector.py`. -/

/-- One OHLCV record; `data.index[i]` is modelled by the `time` field. -/
structure Bar where
  time : ℕ
  open_price : ℚ
  high : ℚ
  low : ℚ
  close : ℚ
deriving DecidableEq

instance : Inhabited Bar := ⟨⟨0, 0, 0, 0, 0⟩⟩

/-- Positional access `data.High[j]`-style on the frame. -/
def barAt (data : List Bar) (j : ℕ) : Bar := data.getD j default

inductive FVGType
  | bullish_fvg
  | bearish_fvg
deriving DecidableEq

/-- The dict built by `FVGDetector.calculate_fvgs` for one gap. -/
structure FVG where
  index : ℕ
  type : FVGType
  top : ℚ
  bottom : ℚ
  size : ℚ
  filled : Bool
  fill_time : Option ℕ
deriving DecidableEq

/-- One iteration of the loop in `FVGDetector.calculate_fvgs`: candle `i-2`
versus candle `i`; the bearish branch is an `elif` of the bullish test. -/
def fvg_at (min_size : ℚ) (data : List Bar) (i : ℕ) : Option FVG :=
  let candle_1_high := (barAt data (i - 2)).high
  let candle_1_low := (barAt data (i - 2)).low
  let candle_3_high := (barAt data i).high
  let candle_3_low := (barAt data i).low
  if candle_1_high < candle_3_low then
    let gap_size := (candle_3_low - candle_1_high) / candle_1_high
    if gap_size ≥ min_size then
      some ⟨i, FVGType.bullish_fvg, candle_3_low, candle_1_high, gap_size, false, none⟩
    else none
  else if candle_1_low > candle_3_high then
    let gap_size := (candle_1_low - candle_3_high) / candle_3_high
    if gap_size ≥ min_size then
      some ⟨i, FVGType.bearish_fvg, candle_1_low, candle_3_high, gap_size, false, none⟩
    else none
  else none

/-- Embedding of `FVGDetector.calculate_fvgs`: the loop `for i in range(2, data_length)`
collecting the emitted gaps in order. -/
def calculate_fvgs (min_size : ℚ) (data : List Bar) : List FVG :=
  (List.range' 2 (data.length - 2)).filterMap (fvg_at min_size data)

/-- Embedding of `smart_money_simple_test.py` lines 220-222: the level start time for a
gap is taken from the first candle of the three-candle pattern. -/
def fvg_level_time (data : List Bar) (f : FVG) : ℕ :=
  (barAt data (f.index - 2)).time

example :
    calculate_fvgs (1/10)
      [⟨0, 9, 10, 9, 10⟩, ⟨1, 11, 12, 11, 12⟩, ⟨2, 12, 13, 12, 13⟩]
      = [⟨2, FVGType.bullish_fvg, 12, 10, 1/5, false, none⟩] := by
  norm_num [calculate_fvgs, fvg_at, barAt, List.range', List.filterMap_cons]

/-- Complete description of one loop iteration of `calculate_fvgs`. -/
lemma fvg_at_eq_some (m : ℚ) (data : List Bar) (i : ℕ) (f : FVG) :
    fvg_at m data i = some f ↔
      (f = ⟨i, FVGType.bullish_fvg, (barAt data i).low, (barAt data (i - 2)).high,
            ((barAt data i).low - (barAt data (i - 2)).high) / (barAt data (i - 2)).high,
            false, none⟩
        ∧ (barAt data (i - 2)).high < (barAt data i).low
        ∧ ((barAt data i).low - (barAt data (i - 2)).high) / (barAt data (i - 2)).high ≥ m)
      ∨ (f = ⟨i, FVGType.bearish_fvg, (barAt data (i - 2)).low, (barAt data i).high,
            ((barAt data (i - 2)).low - (barAt data i).high) / (barAt data i).high,
            false, none⟩
        ∧ ¬ ((barAt data (i - 2)).high < (barAt data i).low)
        ∧ (barAt data (i - 2)).low > (barAt data i).high
        ∧ ((barAt data (i - 2)).low - (barAt data i).high) / (barAt data i).high ≥ m) := by
  unfold fvg_at
  dsimp only
  split_ifs with hb hs hb2 hs2
  · constructor
    · intro h
      exact Or.inl ⟨(Option.some_inj.mp h).symm, hb, hs⟩
    · rintro (⟨rfl, _, _⟩ | ⟨rfl, hnb, _⟩)
      · rfl
      · exact absurd hb hnb
  · constructor
    · intro h
      cases h
    · rintro (⟨rfl, _, hs'⟩ | ⟨rfl, hnb, _⟩)
      · exact absurd hs' hs
      · exact absurd hb hnb
  · constructor
    · intro h
      exact Or.inr ⟨(Option.some_inj.mp h).symm, hb, hb2, hs2⟩
    · rintro (⟨rfl, hb', _⟩ | ⟨rfl, _, _, _⟩)
      · exact absurd hb' hb
      · rfl
  · constructor
    · intro h
      cases h
    · rintro (⟨rfl, hb', _⟩ | ⟨rfl, _, _, hs'⟩)
      · exact absurd hb' hb
      · exact absurd hs' hs2
  · constructor
    · intro h
      cases h
    · rintro (⟨rfl, hb', _⟩ | ⟨rfl, _, hb2', _⟩)
      · exact absurd hb' hb
      · exact absurd hb2' hb2

/-- Membership in the emitted gap list, as a condition on the loop index. -/
lemma mem_calculate_fvgs (m : ℚ) (data : List Bar) (f : FVG) :
    f ∈ calculate_fvgs m data ↔
      ∃ i, 2 ≤ i ∧ i < data.length ∧ fvg_at m data i = some f := by
  unfold calculate_fvgs
  rw [List.mem_filterMap]
  constructor
  · rintro ⟨i, hi, hf⟩
    rw [List.mem_range'_1] at hi
    exact ⟨i, hi.1, by omega, hf⟩
  · rintro ⟨i, h2, hlen, hf⟩
    exact ⟨i, List.mem_range'_1.mpr ⟨h2, by omega⟩, hf⟩

/-- Bars accessed inside the loop bounds are members of the frame. -/
lemma barAt_mem (data : List Bar) (j : ℕ) (hj : j < data.length) :
    barAt data j ∈ data := by
  unfold barAt
  rw [List.getD_eq_getElem data default hj]
  exact List.getElem_mem hj

/-- Claim C4: for an OHLC frame (positive prices, `low ≤ high` per bar), the
detector emits a bullish FVG at index `i` iff `2 ≤ i < len`,
`high[i-2] < low[i]` and `(low[i]-high[i-2])/high[i-2] ≥ min_size`; bearish is
the mirror condition; every emitted gap carries `top`/`bottom` equal to the two
bounding prices, and its level start time is the time of candle `i-2`. -/
theorem c4_fvg_detection (m : ℚ) (data : List Bar) (i : ℕ)
    (hpos : ∀ b ∈ data, 0 < b.low ∧ b.low ≤ b.high) :
    ((∃ f ∈ calculate_fvgs m data, f.index = i ∧ f.type = FVGType.bullish_fvg ∧
        f.top = (barAt data i).low ∧ f.bottom = (barAt data (i - 2)).high) ↔
      (2 ≤ i ∧ i < data.length ∧ (barAt data (i - 2)).high < (barAt data i).low ∧
        ((barAt data i).low - (barAt data (i - 2)).high) / (barAt data (i - 2)).high ≥ m))
    ∧ ((∃ f ∈ calculate_fvgs m data, f.index = i ∧ f.type = FVGType.bearish_fvg ∧
        f.top = (barAt data (i - 2)).low ∧ f.bottom = (barAt data i).high) ↔
      (2 ≤ i ∧ i < data.length ∧ (barAt data (i - 2)).low > (barAt data i).high ∧
        ((barAt data (i - 2)).low - (barAt data i).high) / (barAt data i).high ≥ m))
    ∧ (∀ f ∈ calculate_fvgs m data,
        (f.type = FVGType.bullish_fvg →
          f.top = (barAt data f.index).low ∧ f.bottom = (barAt data (f.index - 2)).high) ∧
        (f.type = FVGType.bearish_fvg →
          f.top = (barAt data (f.index - 2)).low ∧ f.bottom = (barAt data f.index).high) ∧
        fvg_level_time data f = (barAt data (f.index - 2)).time) := by
  refine ⟨?_, ?_, ?_⟩
  · constructor
    · rintro ⟨f, hf, hidx, hty, _, _⟩
      rcases (mem_calculate_fvgs m data f).mp hf with ⟨j, hj2, hjlen, hat⟩
      rcases (fvg_at_eq_some m data j f).mp hat with ⟨hfeq, hb, hs⟩ | ⟨hfeq, _, _, _⟩
      · have hji : j = i := by rw [hfeq] at hidx; exact hidx
        subst hji
        exact ⟨hj2, hjlen, hb, hs⟩
      · rw [hfeq] at hty; cases hty
    · rintro ⟨h2i, hilen, hb, hs⟩
      refine ⟨⟨i, FVGType.bullish_fvg, (barAt data i).low, (barAt data (i - 2)).high,
        ((barAt data i).low - (barAt data (i - 2)).high) / (barAt data (i - 2)).high,
        false, none⟩, ?_, rfl, rfl, rfl, rfl⟩
      exact (mem_calculate_fvgs m data _).mpr
        ⟨i, h2i, hilen, (fvg_at_eq_some m data i _).mpr (Or.inl ⟨rfl, hb, hs⟩)⟩
  · constructor
    · rintro ⟨f, hf, hidx, hty, _, _⟩
      rcases (mem_calculate_fvgs m data f).mp hf with ⟨j, hj2, hjlen, hat⟩
      rcases (fvg_at_eq_some m data j f).mp hat with ⟨hfeq, _, _⟩ | ⟨hfeq, _, hb2, hs2⟩
      · rw [hfeq] at hty; cases hty
      · have hji : j = i := by rw [hfeq] at hidx; exact hidx
        subst hji
        exact ⟨hj2, hjlen, hb2, hs2⟩
    · rintro ⟨h2i, hilen, hb2, hs2⟩
      have hm2 : barAt data (i - 2) ∈ data := barAt_mem data (i - 2) (by omega)
      have hmi : barAt data i ∈ data := barAt_mem data i hilen
      have hnb : ¬ ((barAt data (i - 2)).high < (barAt data i).low) := by
        intro hb
        have h1 := hpos _ hm2
        have h3 := hpos _ hmi
        have : (barAt data (i - 2)).high < (barAt data (i - 2)).high :=
          lt_trans (lt_of_lt_of_le hb h3.2) (lt_of_lt_of_le hb2 h1.2)
        exact lt_irrefl _ this
      refine ⟨⟨i, FVGType.bearish_fvg, (barAt data (i - 2)).low, (barAt data i).high,
        ((barAt data (i - 2)).low - (barAt data i).high) / (barAt data i).high,
        false, none⟩, ?_, rfl, rfl, rfl, rfl⟩
      exact (mem_calculate_fvgs m data _).mpr
        ⟨i, h2i, hilen, (fvg_at_eq_some m data i _).mpr (Or.inr ⟨rfl, hnb, hb2, hs2⟩)⟩
  · intro f hf
    rcases (mem_calculate_fvgs m data f).mp hf with ⟨j, _, _, hat⟩
    rcases (fvg_at_eq_some m data j f).mp hat with ⟨hfeq, _, _⟩ | ⟨hfeq, _, _, _⟩
    · subst hfeq
      refine ⟨fun _ => ⟨rfl, rfl⟩, fun h => ?_, rfl⟩
      exact absurd h (by intro hc; cases hc)
    · subst hfeq
      refine ⟨fun h => ?_, fun _ => ⟨rfl, rfl⟩, rfl⟩
      exact absurd h (by intro hc; cases hc)

/-- Witness for `c4_fvg_detection`: the synthetic 3-bar frame
`high[0]=10 < low[2]=12` with `min_size = 1/10` produces a bullish gap at
index 2 with `top = 12`, `bottom = 10`. -/
theorem c4_fvg_detection_witness :
    ∃ f ∈ calculate_fvgs (1/10)
        [⟨0, 9, 10, 9, 10⟩, ⟨1, 11, 12, 11, 12⟩, ⟨2, 12, 13, 12, 13⟩],
      f.index = 2 ∧ f.type = FVGType.bullish_fvg ∧
        f.top = (barAt [⟨0, 9, 10, 9, 10⟩, ⟨1, 11, 12, 11, 12⟩, ⟨2, 12, 13, 12, 13⟩] 2).low ∧
        f.bottom = (barAt [⟨0, 9, 10, 9, 10⟩, ⟨1, 11, 12, 11, 12⟩, ⟨2, 12, 13, 12, 13⟩] 0).high := by
  refine ((c4_fvg_detection (1/10)
    [⟨0, 9, 10, 9, 10⟩, ⟨1, 11, 12, 11, 12⟩, ⟨2, 12, 13, 12, 13⟩] 2
    (by intro b hb; fin_cases hb <;> norm_num)).1).mpr ?_
  refine ⟨by norm_num, by norm_num, ?_, ?_⟩
  · show (barAt _ 0).high < (barAt _ 2).low
    norm_num [barAt]
  · show ((barAt _ 2).low - (barAt _ 0).high) / (barAt _ 0).high ≥ 1/10
    norm_num [barAt]

/-! ## Level manager
Embedding of `smart_money_simple_test/components/level_manager.py`. -/

inductive LType
  | swing_high
  | swing_low
  | bullish_fvg
  | bearish_fvg
  | bullish_ob
  | bearish_ob
deriving DecidableEq

inductive BreakDir
  | upward
  | downward
deriving DecidableEq

/-- A level dict as built by the `add_*` methods.  Keys that only some level
kinds carry (`filled`, `top`, ...) are `Option`-valued, `none` meaning the key
is absent from the dict. -/
structure Level where
  time : ℕ
  price : ℚ
  type : LType
  end_time : Option ℕ
  break_direction : Option BreakDir := none
  filled : Option Bool := none
  fill_time : Option ℕ := none
  mitigated : Option Bool := none
  top : Option ℚ := none
  bottom : Option ℚ := none
deriving DecidableEq

/-- Embedding of `LevelManager.add_swing_high`. -/
def add_swing_high (time : ℕ) (price : ℚ) : Level :=
  { time := time, price := price, type := LType.swing_high,
    end_time := none, break_direction := none }

/-- Embedding of `LevelManager.add_swing_low`. -/
def add_swing_low (time : ℕ) (price : ℚ) : Level :=
  { time := time, price := price, type := LType.swing_low,
    end_time := none, break_direction := none }

/-- Embedding of `LevelManager.add_fvg` (the `type` field comes from the FVG dict). -/
def add_fvg (time : ℕ) (fvg_data : FVG) : Level :=
  { time := time, price := (fvg_data.top + fvg_data.bottom) / 2,
    type := match fvg_data.type with
      | FVGType.bullish_fvg => LType.bullish_fvg
      | FVGType.bearish_fvg => LType.bearish_fvg,
    end_time := none, filled := some false,
    top := some fvg_data.top, bottom := some fvg_data.bottom }

/-- The per-level body of the loop in `LevelManager.check_level_breaks`:
returns the (possibly mutated) level and whether it was appended to
`broken_levels`.  Only levels with `end_time == None` are examined; the
`elif` chain handles swing and FVG types, and no branch matches the
order-block types. -/
def step_level (current_high current_low : ℚ) (current_time : ℕ) (lv : Level) :
    Level × Bool :=
  if lv.end_time = none then
    if lv.type = LType.swing_high ∧ current_high > lv.price then
      ({ lv with end_time := some current_time,
                 break_direction := some BreakDir.upward }, true)
    else if lv.type = LType.swing_low ∧ current_low < lv.price then
      ({ lv with end_time := some current_time,
                 break_direction := some BreakDir.downward }, true)
    else if (lv.type = LType.bullish_fvg ∨ lv.type = LType.bearish_fvg) ∧
        lv.filled = some false then
      if lv.type = LType.bullish_fvg ∧ current_low ≤ lv.bottom.getD 0 then
        ({ lv with end_time := some current_time, filled := some true,
                   fill_time := some current_time }, true)
      else if lv.type = LType.bearish_fvg ∧ current_high ≥ lv.top.getD 0 then
        ({ lv with end_time := some current_time, filled := some true,
                   fill_time := some current_time }, true)
      else (lv, false)
    else (lv, false)
  else (lv, false)

/-- Embedding of `LevelManager.check_level_breaks`: mutates the level list in place and
returns `(updated levels, broken_levels)`. -/
def check_level_breaks (current_high current_low : ℚ) (current_time : ℕ)
    (levels : List Level) : List Level × List Level :=
  let pairs := levels.map (step_level current_high current_low current_time)
  (pairs.map Prod.fst, (pairs.filter Prod.snd).map Prod.fst)

/-- One bar as the strategy's `next()` sees the level list: first
`check_level_breaks`, then the `add_*` calls append any new levels for this
bar (`smart_money_simple_test.py` lines 186-247). -/
structure BarStep where
  current_high : ℚ
  current_low : ℚ
  current_time : ℕ
  new_levels : List Level

/-- The level list after one `next()` call. -/
def bar_step (b : BarStep) (levels : List Level) : List Level :=
  (check_level_breaks b.current_high b.current_low b.current_time levels).fst
    ++ b.new_levels

/-- The level list after a sequence of bars. -/
def run_bars (bars : List BarStep) (levels : List Level) : List Level :=
  bars.foldl (fun ls b => bar_step b ls) levels

/-- A terminal level is left untouched by the loop body. -/
lemma step_level_fix (ch cl : ℚ) (t : ℕ) (lv : Level) (h : lv.end_time ≠ none) :
    step_level ch cl t lv = (lv, false) := by
  unfold step_level
  rw [if_neg h]

/-- Positions survive one `bar_step`: the check phase maps positionally and
the add phase appends. -/
lemma bar_step_get? (b : BarStep) (levels : List Level) (k : ℕ) (lv : Level)
    (hk : levels.get? k = some lv) (ht : lv.end_time ≠ none) :
    (bar_step b levels).get? k = some lv := by
  have hklen : k < levels.length := List.get?_eq_some.mp hk |>.1
  unfold bar_step check_level_breaks
  rw [List.get?_append (by simpa using hklen)]
  rw [List.get?_map, List.get?_map, hk]
  simp [step_level_fix b.current_high b.current_low b.current_time lv ht]

lemma bar_step_length (b : BarStep) (levels : List Level) :
    levels.length ≤ (bar_step b levels).length := by
  unfold bar_step check_level_breaks
  simp

/-- Claim C5: once a level's `end_time` is set, no later sequence of bars
changes the level in any way — it sits unchanged at the same position in the
manager's list (in particular its `end_time`, `filled`/`mitigated` flags and
`break_direction` are frozen), and bars never remove levels. -/
theorem c5_terminal_levels_frozen (bars : List BarStep) (levels : List Level)
    (k : ℕ) (lv : Level) (t0 : ℕ)
    (hk : levels.get? k = some lv) (ht : lv.end_time = some t0) :
    (run_bars bars levels).get? k = some lv
    ∧ levels.length ≤ (run_bars bars levels).length := by
  induction bars generalizing levels with
  | nil => exact ⟨hk, le_refl _⟩
  | cons b bs ih =>
    have hne : lv.end_time ≠ none := by rw [ht]; exact Option.some_ne_none t0
    have h1 : (bar_step b levels).get? k = some lv := bar_step_get? b levels k lv hk hne
    have h2 := ih (bar_step b levels) h1
    exact ⟨h2.1, le_trans (bar_step_length b levels) h2.2⟩

/-- Witness for `c5_terminal_levels_frozen`: a swing high broken at time 1
is unchanged by a later bar that trades above and below it. -/
theorem c5_terminal_levels_frozen_witness :
    (run_bars [⟨20, 1, 2, []⟩]
        [{ time := 0, price := 10, type := LType.swing_high,
           end_time := some 1, break_direction := some BreakDir.upward }]).get? 0
      = some { time := 0, price := 10, type := LType.swing_high,
               end_time := some 1, break_direction := some BreakDir.upward }
    ∧ (1 : ℕ) ≤ (run_bars [⟨20, 1, 2, []⟩]
        [{ time := 0, price := 10, type := LType.swing_high,
           end_time := some 1, break_direction := some BreakDir.upward }]).length :=
  c5_terminal_levels_frozen [⟨20, 1, 2, []⟩]
    [{ time := 0, price := 10, type := LType.swing_high,
       end_time := some 1, break_direction := some BreakDir.upward }]
    0
    { time := 0, price := 10, type := LType.swing_high,
      end_time := some 1, break_direction := some BreakDir.upward }
    1 rfl rfl

/-! ## Order-block detector
Embedding of `smart_money_simple_test/components/order_block_detector.py`
(the parts the claims are about), and of the per-bar mitigation update in
`smart_money_simple_test.py` lines 257-262. -/

inductive OBType
  | bullish_ob
  | bearish_ob
deriving DecidableEq

/-- The dict built by `OrderBlockDetector.calculate_order_blocks`. -/
structure OrderBlock where
  index : ℕ
  time : ℕ
  type : OBType
  top : ℚ
  bottom : ℚ
  mitigated : Bool
  mitigation_time : Option ℕ
deriving DecidableEq

/-- Embedding of `OrderBlockDetector.check_ob_mitigation`. -/
def check_ob_mitigation (use_close_mitigation : Bool) (ob : OrderBlock)
    (current_high current_low current_open current_close : ℚ) : Bool :=
  if ob.mitigated then true
  else
    match ob.type with
    | OBType.bullish_ob =>
      let mitigation_price :=
        if ¬ use_close_mitigation then current_low else min current_open current_close
      decide (mitigation_price < ob.bottom)
    | OBType.bearish_ob =>
      let mitigation_price :=
        if ¬ use_close_mitigation then current_high else max current_open current_close
      decide (mitigation_price > ob.top)

/-- Embedding of `smart_money_simple_test.py` lines 257-262: the strategy's per-bar update
of one detector order-block record. -/
def update_ob (use_close_mitigation : Bool)
    (current_high current_low current_open current_close : ℚ) (current_time : ℕ)
    (ob : OrderBlock) : OrderBlock :=
  if ¬ ob.mitigated then
    if check_ob_mitigation use_close_mitigation ob
        current_high current_low current_open current_close then
      { ob with mitigated := true, mitigation_time := some current_time }
    else ob
  else ob

/-- Embedding of `LevelManager.add_order_block`. -/
def add_order_block (ob_data : OrderBlock) : Level :=
  { time := ob_data.time, price := (ob_data.top + ob_data.bottom) / 2,
    type := match ob_data.type with
      | OBType.bullish_ob => LType.bullish_ob
      | OBType.bearish_ob => LType.bearish_ob,
    end_time := if ob_data.mitigated then ob_data.mitigation_time else none,
    mitigated := some ob_data.mitigated,
    top := some ob_data.top, bottom := some ob_data.bottom }

/-- Claim C6, counterexample: a still-active bullish order-block level whose
mitigation condition is satisfied by the current bar (`low = 3` falls below
`bottom = 4`) is NOT transitioned by the Level Manager — `check_level_breaks`
returns it unchanged, with `end_time` still unset and nothing reported broken. -/
theorem c6_counterexample :
    check_ob_mitigation false
        ⟨3, 0, OBType.bullish_ob, 6, 4, false, none⟩ 7 3 5 5 = true
    ∧ check_level_breaks 7 3 9
        [{ time := 0, price := 5, type := LType.bullish_ob, end_time := none,
           mitigated := some false, top := some 6, bottom := some 4 }]
      = ([{ time := 0, price := 5, type := LType.bullish_ob, end_time := none,
            mitigated := some false, top := some 6, bottom := some 4 }], [])
    ∧ ({ time := 0, price := 5, type := LType.bullish_ob, end_time := none,
         mitigated := some false, top := some 6, bottom := some 4 } : Level).end_time
        = none := by
  refine ⟨by decide, ?_, rfl⟩
  decide

/-- Claim C6 (amended): the Level Manager itself never transitions an
order-block level — `check_level_breaks` has no branch for the `*_ob` types,
so such a level is returned unchanged and never reported broken.  Mitigation
is instead tracked on the detector's order-block records by the strategy's
per-bar update: an unmitigated record whose mitigation condition holds on the
current bar (bullish: the bar's low — or `min(open, close)` under
close-mitigation — strictly below the block's bottom; bearish mirrored above
the top) is marked mitigated with `mitigation_time` set to the current bar,
and a record already mitigated is never changed again. -/
theorem c6_ob_mitigation (current_high current_low current_open current_close : ℚ)
    (current_time : ℕ) (lv : Level) (use_close_mitigation : Bool) (ob : OrderBlock)
    (hty : lv.type = LType.bullish_ob ∨ lv.type = LType.bearish_ob) :
    step_level current_high current_low current_time lv = (lv, false)
    ∧ (ob.mitigated = false →
        check_ob_mitigation use_close_mitigation ob
            current_high current_low current_open current_close = true →
          update_ob use_close_mitigation current_high current_low
              current_open current_close current_time ob
            = { ob with mitigated := true, mitigation_time := some current_time })
    ∧ (ob.mitigated = true →
        update_ob use_close_mitigation current_high current_low
            current_open current_close current_time ob = ob)
    ∧ (ob.mitigated = false → ob.type = OBType.bullish_ob →
        (check_ob_mitigation use_close_mitigation ob
            current_high current_low current_open current_close = true ↔
          (if use_close_mitigation then min current_open current_close
           else current_low) < ob.bottom))
    ∧ (ob.mitigated = false → ob.type = OBType.bearish_ob →
        (check_ob_mitigation use_close_mitigation ob
            current_high current_low current_open current_close = true ↔
          (if use_close_mitigation then max current_open current_close
           else current_high) > ob.top)) := by
  refine ⟨?_, ?_, ?_, ?_, ?_⟩
  · unfold step_level
    rcases hty with h | h <;>
    · by_cases he : lv.end_time = none
      · rw [if_pos he]
        rw [if_neg (by rw [h]; rintro ⟨hc, -⟩; cases hc)]
        rw [if_neg (by rw [h]; rintro ⟨hc, -⟩; cases hc)]
        rw [if_neg (by rw [h]; rintro ⟨hc | hc, -⟩ <;> cases hc)]
      · rw [if_neg he]
  · intro hm hc
    unfold update_ob
    rw [hm]
    simp only [Bool.not_false, if_true, hc, if_pos]
    simp
  · intro hm
    unfold update_ob
    rw [hm]
    simp
  · intro hm hb
    unfold check_ob_mitigation
    rw [hm, hb]
    cases use_close_mitigation <;> simp
  · intro hm hb
    unfold check_ob_mitigation
    rw [hm, hb]
    cases use_close_mitigation <;> simp

/-- Witness for `c6_ob_mitigation`: the concrete active bullish block of
`c6_counterexample` together with the bar `(high, low, open, close) =
(7, 3, 5, 5)` at time 9. -/
theorem c6_ob_mitigation_witness :
    step_level 7 3 9
        { time := 0, price := 5, type := LType.bullish_ob, end_time := none,
          mitigated := some false, top := some 6, bottom := some 4 }
      = ({ time := 0, price := 5, type := LType.bullish_ob, end_time := none,
           mitigated := some false, top := some 6, bottom := some 4 }, false)
    ∧ ((⟨3, 0, OBType.bullish_ob, 6, 4, false, none⟩ : OrderBlock).mitigated = false →
        check_ob_mitigation false ⟨3, 0, OBType.bullish_ob, 6, 4, false, none⟩ 7 3 5 5 = true →
          update_ob false 7 3 5 5 9 ⟨3, 0, OBType.bullish_ob, 6, 4, false, none⟩
            = { (⟨3, 0, OBType.bullish_ob, 6, 4, false, none⟩ : OrderBlock) with
                mitigated := true, mitigation_time := some 9 }) := by
  have h := c6_ob_mitigation 7 3 5 5 9
    { time := 0, price := 5, type := LType.bullish_ob, end_time := none,
      mitigated := some false, top := some 6, bottom := some 4 }
    false ⟨3, 0, OBType.bullish_ob, 6, 4, false, none⟩ (Or.inl rfl)
  exact ⟨h.1, h.2.1⟩

/-! ## Execution simulator and strategy entry logic -/

inductive TradeDir
  | long
  | short
deriving DecidableEq

/-- An open bracket position as held by the engine. -/
structure Position where
  direction : TradeDir
  entry_price : ℚ
  sl : ℚ
  tp : ℚ
  entry_time : ℕ
deriving DecidableEq

/-- Simulator state: the engine's list of open positions and the realized
trade log (closed positions). -/
structure SimState where
  positions : List Position
  closed : List Position
deriving DecidableEq

/-- Modelled from the spec: the bracket-exit test of the Execution Simulator
(§4.5, "check whether this bar's high/low crosses the stop-loss or take-profit
threshold").  The engine itself (`backtesting.Backtest`, run with
`exclusive_orders=True, hedging=False, trade_on_close=True` in
`flexible_backtest.py`) is an external dependency of the repository. -/
def bracket_hit (p : Position) (current_high current_low : ℚ) : Bool :=
  match p.direction with
  | TradeDir.long => decide (current_low ≤ p.sl) || decide (current_high ≥ p.tp)
  | TradeDir.short => decide (current_high ≥ p.sl) || decide (current_low ≤ p.tp)

/-- Modelled from the spec: phase (1) of the per-bar step — close any open
position whose bracket is hit by the bar, realizing it into the trade log. -/
def close_hit (current_high current_low : ℚ) (st : SimState) : SimState :=
  { positions := st.positions.filter (fun p => ¬ bracket_hit p current_high current_low),
    closed := st.closed ++ st.positions.filter (fun p => bracket_hit p current_high current_low) }

/-- The entry logic of `SimpleMACrossBacktestStrategy.next` (lines 139-159):
an entry branch fires only when its signal holds AND `not self.position`
(no open position).  The crossover signals themselves are abstracted as the
booleans `long_signal`/`short_signal`, which covers every strategy variant in
the repository (each guards its entries with `not self.position`). -/
def strategy_next (long_signal short_signal : Bool)
    (entry_price stop_loss_pct risk_reward : ℚ) (t : ℕ) (st : SimState) : SimState :=
  if long_signal ∧ st.positions = [] then
    { st with positions := st.positions ++
        [⟨TradeDir.long, entry_price, entry_price * (1 - stop_loss_pct),
          entry_price * (1 + stop_loss_pct * risk_reward), t⟩] }
  else if short_signal ∧ st.positions = [] then
    { st with positions := st.positions ++
        [⟨TradeDir.short, entry_price, entry_price * (1 + stop_loss_pct),
          entry_price * (1 - stop_loss_pct * risk_reward), t⟩] }
  else st

/-- Modelled from the spec: one bar of the Execution Simulator — bracket exits
first, then the strategy's entry logic at the bar close (`trade_on_close`). -/
def sim_step (stop_loss_pct risk_reward : ℚ) (signals : ℕ → Bool × Bool)
    (st : SimState) (ib : ℕ × Bar) : SimState :=
  strategy_next (signals ib.1).1 (signals ib.1).2 ib.2.close
    stop_loss_pct risk_reward ib.2.time
    (close_hit ib.2.high ib.2.low st)

/-- Modelled from the spec: the bar-by-bar driver over a Bar Series, starting
FLAT with an empty trade log. -/
def run_sim (stop_loss_pct risk_reward : ℚ) (signals : ℕ → Bool × Bool)
    (bars : List Bar) : SimState :=
  bars.enum.foldl (sim_step stop_loss_pct risk_reward signals) ⟨[], []⟩

lemma close_hit_length (ch cl : ℚ) (st : SimState) :
    (close_hit ch cl st).positions.length ≤ st.positions.length := by
  unfold close_hit
  exact List.length_filter_le _ _

lemma strategy_next_length (ls ss : Bool) (ep slp rr : ℚ) (t : ℕ) (st : SimState)
    (h : st.positions.length ≤ 1) :
    (strategy_next ls ss ep slp rr t st).positions.length ≤ 1 := by
  unfold strategy_next
  split_ifs with h1 h2
  · simp [h1.2]
  · simp [h2.2]
  · exact h

lemma run_sim_aux (slp rr : ℚ) (signals : ℕ → Bool × Bool)
    (ibs : List (ℕ × Bar)) (st : SimState) (h : st.positions.length ≤ 1) :
    (ibs.foldl (sim_step slp rr signals) st).positions.length ≤ 1 := by
  induction ibs generalizing st with
  | nil => exact h
  | cons ib ibs ih =>
    refine ih _ ?_
    unfold sim_step
    exact strategy_next_length _ _ _ _ _ _ _
      (le_trans (close_hit_length _ _ st) h)

/-- Claim C1: starting FLAT, after any prefix of the bar series (i.e. in every
reachable simulator state) at most one position is open, for every choice of
entry-signal streams — because each entry branch requires the position state
to be flat. -/
theorem c1_single_position (stop_loss_pct risk_reward : ℚ)
    (signals : ℕ → Bool × Bool) (bars : List Bar) (n : ℕ) :
    ((run_sim stop_loss_pct risk_reward signals (bars.take n)).positions).length ≤ 1 := by
  unfold run_sim
  exact run_sim_aux stop_loss_pct risk_reward signals _ _ (by simp)

/-! ## Statistics aggregation
Embedding of the result-assembly code in
`scripts/backtest/flexible_backtest.py` (`run_flexible_backtest`). -/

/-- Lines 220-226: the Value-at-Risk(95%) computation.  `sorted(pnl_list)` is
embedded as insertion sort; `int(len(sorted_pnl) * 0.05)`, exact under
rational arithmetic, is `⌊n/20⌋`. -/
def value_at_risk (pnl_list : List ℚ) : ℚ :=
  if pnl_list = [] then 0
  else
    let sorted_pnl := List.insertionSort (· ≤ ·) pnl_list
    let var_index := pnl_list.length / 20
    if var_index < sorted_pnl.length then |sorted_pnl.getD var_index 0| else 0

/-- Lines 431-433: `average_pnl`, guarded against `total_trades == 0`. -/
def average_pnl (equity_final cash : ℚ) (total_trades : ℕ) : ℚ :=
  if total_trades > 0 then (equity_final - cash) / (total_trades : ℚ) else 0

/-- Lines 435-439: `average_pnl_percentage`, same guard. -/
def average_pnl_percentage (equity_final cash : ℚ) (total_trades : ℕ) : ℚ :=
  if total_trades > 0 then
    (((equity_final - cash) / cash) * 100) / (total_trades : ℚ)
  else 0

/-- Claim C3, counterexample: on an empty trade log the reported
Value-at-Risk is the number `0`, not a null value — the claim's "null, not
zero" fails on the code at this concrete input. -/
theorem c3_counterexample : value_at_risk [] = 0 := by
  unfold value_at_risk
  simp

/-- Claim C3 (amended): on an empty trade log the result assembler reports
`value_at_risk = 0` (a number, not null) and guards `average_pnl` and
`average_pnl_percentage` to `0`, so no division-by-zero is performed; win
rate, Sharpe and profit factor are copied unchanged from the external
`backtesting` stats object rather than being reported as null. -/
theorem c3_empty_trade_log :
    value_at_risk [] = 0
    ∧ (∀ equity_final cash : ℚ,
        average_pnl equity_final cash 0 = 0
        ∧ average_pnl_percentage equity_final cash 0 = 0) := by
  refine ⟨?_, fun e c => ⟨?_, ?_⟩⟩
  · unfold value_at_risk
    simp
  · unfold average_pnl
    simp
  · unfold average_pnl_percentage
    simp

/-- Claim C7: for a non-empty PnL list, the reported VaR is the absolute
value of the entry at index `⌊0.05·n⌋` of the ascending-sorted PnL list —
the code's `sorted_pnl` really is an ascending-ordered permutation of the
input, and the guard `var_index < len` is always true. -/
theorem c7_value_at_risk (pnl_list : List ℚ) (hne : pnl_list ≠ []) :
    value_at_risk pnl_list
        = |(List.insertionSort (· ≤ ·) pnl_list).getD (pnl_list.length / 20) 0|
    ∧ List.Sorted (· ≤ ·) (List.insertionSort (· ≤ ·) pnl_list)
    ∧ List.Perm (List.insertionSort (· ≤ ·) pnl_list) pnl_list
    ∧ pnl_list.length / 20 < (List.insertionSort (· ≤ ·) pnl_list).length := by
  have hpos : 0 < pnl_list.length := List.length_pos.mpr hne
  have hlt : pnl_list.length / 20 < pnl_list.length :=
    Nat.div_lt_self hpos (by norm_num)
  have hlen : (List.insertionSort (· ≤ ·) pnl_list).length = pnl_list.length :=
    List.length_insertionSort _ _
  refine ⟨?_, List.sorted_insertionSort _ _, List.perm_insertionSort _ _, by omega⟩
  unfold value_at_risk
  rw [if_neg hne, if_pos (by omega)]

/-- Witness for `c7_value_at_risk`: the spec's scenario
`[-50, -20, -10, 5, 30]` has `⌊5·0.05⌋ = 0` and VaR exactly `50`. -/
theorem c7_value_at_risk_witness :
    value_at_risk [-50, -20, -10, 5, 30] = 50 := by
  have h := c7_value_at_risk [-50, -20, -10, 5, 30] (by simp)
  rw [h.1]
  norm_num [List.insertionSort, List.orderedInsert]

/-! ## Trade-record assembly
Embedding of lines 179-206 of `run_flexible_backtest`. -/

/-- The fields of one engine trade row used by the `exit_reason` expression:
`tp = none` models a missing `TP` attribute or a NaN value. -/
structure TradeRec where
  tp : Option ℚ
  exit_price : ℚ
deriving DecidableEq

/-- Lines 199-205: `"take_profit" if hasattr(trade, "TP") and not
pd.isna(trade.TP) and trade.ExitPrice == trade.TP else "stop_loss"`. -/
def exit_reason (t : TradeRec) : String :=
  match t.tp with
  | some p => if t.exit_price = p then "take_profit" else "stop_loss"
  | none => "stop_loss"

/-- Claim C10: a trade's `exit_reason` is `"take_profit"` exactly when the
record carries a take-profit price equal to its exit price, and
`"stop_loss"` in every other case; no third value is ever produced. -/
theorem c10_exit_reason (t : TradeRec) :
    (exit_reason t = "take_profit" ↔ t.tp = some t.exit_price)
    ∧ (exit_reason t = "take_profit" ∨ exit_reason t = "stop_loss") := by
  cases htp : t.tp with
  | none => simp [exit_reason, htp]
  | some p =>
    by_cases he : t.exit_price = p
    · subst he
      simp [exit_reason, htp]
    · have hne : p ≠ t.exit_price := fun hc => he hc.symm
      simp [exit_reason, htp, he, hne]
